import Mathlib

set_option maxHeartbeats 1000000

/-!
Verification of the rosbag2 record/replay subsystem: the rewrite k-way merger
(`rosbag2_cpp/rewrite.cpp`), the playback engine (`rosbag2_transport/player.cpp`)
and the recording engine (`rosbag2_transport/recorder.cpp`), shallowly embedded
as pure Lean functions over explicit state.
-/

/-- `rosbag2_storage::SerializedBagMessage`: topic name, opaque payload
(abstracted as a `Nat` identifier) and an `int64` nanosecond timestamp. -/
structure SerializedBagMessage where
  topic_name : String
  serialized_data : Nat
  time_stamp : Int
deriving Repr, DecidableEq

abbrev Msg := SerializedBagMessage

/-- Timestamp order on messages (non-decreasing sequences are `List.Sorted tsLE`). -/
def tsLE (a b : Msg) : Prop := a.time_stamp ≤ b.time_stamp

instance : DecidableRel tsLE := fun a b => by
  unfold tsLE
  infer_instance

namespace rosbag2_cpp

/-- The rewrite merger's state: for each input bag `i`, the reader's remaining
message cursor (`input_bags[i]`, front = next message) paired with the
`next_messages[i]` head slot. The C++ keeps two parallel vectors indexed by
`i`; we keep the `i`-th entries paired. -/
abbrev MergeState := List (List Msg × Option Msg)

/-- One step of the refill loop body of `get_next`
(`if (next_messages[i] == nullptr && input_bags[i]->has_next())
     next_messages[i] = input_bags[i]->read_next();`). -/
def refillOne : List Msg × Option Msg → List Msg × Option Msg
  | (bag, some m) => (bag, some m)
  | ([], none) => ([], none)
  | (m :: rest, none) => (rest, some m)

/-- The refill loop of `get_next`, over all indices. -/
def refill (st : MergeState) : MergeState := st.map refillOne

/-- The scan loop of `get_next` that finds the non-null slot with the lowest
timestamp: `best` carries `(earliest_msg_index, earliest_msg)`, `i` is the
current index, and a slot replaces `best` only on strictly smaller
`time_stamp` (`msg->time_stamp < earliest_msg->time_stamp`). -/
def findEarliestAux : List (Option Msg) → Nat → Option (Nat × Msg) → Option (Nat × Msg)
  | [], _, best => best
  | none :: rest, i, best => findEarliestAux rest (i + 1) best
  | some m :: rest, i, best =>
    match best with
    | none => findEarliestAux rest (i + 1) (some (i, m))
    | some (j, bm) =>
      if m.time_stamp < bm.time_stamp then
        findEarliestAux rest (i + 1) (some (i, m))
      else
        findEarliestAux rest (i + 1) (some (j, bm))

/-- The full scan of `next_messages`, starting with `earliest_msg = nullptr`. -/
def findEarliest (slots : List (Option Msg)) : Option (Nat × Msg) :=
  findEarliestAux slots 0 none

/-- `next_messages[earliest_msg_index].reset()`. -/
def clearSlot : MergeState → Nat → MergeState
  | [], _ => []
  | p :: rest, 0 => (p.1, none) :: rest
  | p :: rest, j + 1 => p :: clearSlot rest j

/-- `get_next` from `rewrite.cpp`: refill all empty slots from their readers,
pick the slot with the lowest timestamp (ties to the smallest index), clear
that slot, and return its message; return `none` when every slot stayed
empty. -/
def get_next (st : MergeState) : Option Msg × MergeState :=
  let st1 := refill st
  match findEarliest (st1.map Prod.snd) with
  | none => (none, st1)
  | some (j, m) => (some m, clearSlot st1 j)

/-- The messages still held by one pair: the slot content then the reader's
remaining cursor. -/
def pairContent (p : List Msg × Option Msg) : List Msg :=
  (match p.2 with
   | none => []
   | some m => [m]) ++ p.1

/-- All messages still held by the merge state. -/
def stContent (st : MergeState) : List Msg := (st.map pairContent).flatten

/-- Per-pair invariant of the merge: the reader's remaining cursor is
non-decreasing in `time_stamp`, and a filled slot holds a message no later
than anything still in its own reader. -/
def PairInv (p : List Msg × Option Msg) : Prop :=
  List.Sorted tsLE p.1 ∧ ∀ m : Msg, p.2 = some m → ∀ x ∈ p.1, m.time_stamp ≤ x.time_stamp

def StInv (st : MergeState) : Prop := ∀ p ∈ st, PairInv p

/-- After the refill loop, an empty slot means its reader is exhausted. -/
def Refilled (st : MergeState) : Prop := ∀ p ∈ st, p.2 = (none : Option Msg) → p.1 = []


/-- The `while (next_msg = get_next(input_bags, next_messages))` loop of
`rewrite`, written with explicit fuel; `(stContent st).length + 1` steps
always suffice because every successful `get_next` removes one message. -/
def mergeLoopFuel : Nat → MergeState → List Msg
  | 0, _ => []
  | Nat.succ n, st =>
    match get_next st with
    | (none, _) => []
    | (some m, st') => m :: mergeLoopFuel n st'

/-- The sequence of messages the rewrite loop emits to every writer. -/
def mergeLoop (st : MergeState) : List Msg :=
  mergeLoopFuel ((stContent st).length + 1) st

/-- `rosbag2_cpp::rewrite`: writers are opaque sinks, so the output bags are
represented by how many there are; each one receives the merged sequence
message by message. Throws (models as `Except.error`) when either vector is
empty, before touching any reader or writer. -/
def rewrite (input_bags : List (List Msg)) (output_bags : Nat) :
    Except String (List (List Msg)) :=
  if input_bags = [] ∨ output_bags = 0 then
    Except.error "Must provide at least one input and one output bag to rewrite."
  else
    Except.ok (List.replicate output_bags
      (mergeLoop (input_bags.map (fun bag => (bag, (none : Option Msg))))))

/-- Concrete two-bag input used to witness the merge theorems. -/
def wbagA : List Msg := [⟨"x", 0, 10⟩, ⟨"x", 1, 30⟩]

def wbagB : List Msg := [⟨"y", 2, 20⟩, ⟨"y", 3, 40⟩]

/-- Concrete merge state used to witness the `get_next` safety theorem. -/
def wst : MergeState :=
  [([⟨"x", 1, 30⟩], some ⟨"x", 0, 10⟩), ([⟨"y", 2, 20⟩], none)]

/-- The state `get_next wst` leaves behind. -/
def wstNext : MergeState :=
  [([⟨"x", 1, 30⟩], none), ([], some ⟨"y", 2, 20⟩)]

end rosbag2_cpp

namespace rosbag2_transport

/-- The virtual clock as the Player observes it: the pause flag, the current
bag time, and the trace of `jump` calls performed on it. -/
structure TimeControllerClock where
  paused : Bool
  now : Int
  jumps : List Int
deriving Repr, DecidableEq

/-- `clock_->jump(t)`: sets the clock's time and records the jump. -/
def TimeControllerClock.jump (c : TimeControllerClock) (t : Int) : TimeControllerClock :=
  ⟨c.paused, t, c.jumps ++ [t]⟩

/-- The Reader as the Player sees it: the bag's full ordered content and the
cursor's remaining suffix. -/
structure Reader where
  bag : List Msg
  remaining : List Msg
deriving Repr, DecidableEq

/-- Modelled from the spec: the Reader is an external collaborator whose code
is not part of this repository (spec section 6 gives only its contract
`seek(t: nsec)` over an ordered cursor). `seek(t)` repositions the cursor so
that the next message read is the first whose `time_stamp` is not below `t`. -/
def Reader.seek (r : Reader) (t : Int) : Reader :=
  ⟨r.bag, r.bag.dropWhile (fun m => decide (m.time_stamp < t))⟩

/-- The Player state touched by `play_next`, `seek` and `publish_message`:
clock, registered publisher topics, the read-ahead message queue (front =
head), the trace of published messages, the reader, `starting_time_`, and
whether the storage-loading producer task has finished. -/
structure PlayerState where
  clock : TimeControllerClock
  publishers : List String
  message_queue : List Msg
  published : List Msg
  reader : Reader
  starting_time : Int
  storage_loading_done : Bool
deriving Repr, DecidableEq

namespace Player

/-- `Player::publish_message`: publish succeeds exactly when a publisher for
the message's topic is registered. -/
def publish_message (publishers : List String) (message : Msg) : Bool :=
  publishers.contains message.topic_name

/-- The `while (message_ptr != nullptr && !next_message_published)` loop of
`Player::play_next`: dequeues messages, attempts to publish each, and jumps
the clock to each dequeued message's `time_stamp` (the jump is not guarded by
the publish result in the source). Returns (published flag, clock, remaining
queue, messages published by this call). -/
def play_next_loop (publishers : List String) :
    List Msg → Bool → TimeControllerClock →
    Bool × TimeControllerClock × List Msg × List Msg
  | [], next_message_published, clock => (next_message_published, clock, [], [])
  | message :: rest, next_message_published, clock =>
    if next_message_published then (next_message_published, clock, message :: rest, [])
    else
      let ok := publish_message publishers message
      let clock' := clock.jump message.time_stamp
      let r := play_next_loop publishers rest ok clock'
      (r.1, r.2.1, r.2.2.1, (if ok then [message] else []) ++ r.2.2.2)

/-- `Player::play_next`: warns and returns false when the clock is not
paused; otherwise runs the publish loop over the queue. -/
def play_next (st : PlayerState) : Bool × PlayerState :=
  if st.clock.paused = false then
    (false, st)
  else
    let r := play_next_loop st.publishers st.message_queue false st.clock
    (r.1,
      ⟨r.2.1, st.publishers, r.2.2.1, st.published ++ r.2.2.2, st.reader,
        st.starting_time, st.storage_loading_done⟩)

/-- `Player::seek`: clamp the target below to `starting_time_`, drain the
queue, reposition the reader, jump the clock, and ensure the producer task is
running again (a finished task is respawned; a running one continues). -/
def seek (st : PlayerState) (time_point : Int) : PlayerState :=
  let tp := if time_point < st.starting_time then st.starting_time else time_point
  ⟨st.clock.jump tp, st.publishers, [], st.published, st.reader.seek tp,
    st.starting_time, false⟩

/-- The `do { ... } while (loop)` body of `Player::play`, one entry per pass;
a pass either completes or raises a storage error, which the `catch` at loop
scope converts into a single `Failed to play: <msg>` log and a normal
return. -/
def playGo : List (Except String Unit) → List String
  | [] => []
  | Except.ok _ :: rest => playGo rest
  | Except.error e :: _ => ["Failed to play: " ++ e]

/-- `Player::play`: the error log it emits and the final value of
`is_ready_to_play_from_queue_` (always cleared on the way out, lines
216-218 of player.cpp). -/
def play (passes : List (Except String Unit)) : List String × Bool :=
  (playGo passes, false)

end Player

/-- `rosbag2_storage::TopicMetadata` as used by QoS selection. -/
structure TopicMetadata where
  name : String
  type : String
  serialization_format : String
  offered_qos_profiles : String
deriving Repr, DecidableEq

/-- Which branch `publisher_qos_for_topic` takes: the override, the default
`Rosbag2QoS{}`, or `adapt_offer_to_recorded_offers` on the YAML-parsed
recorded profiles. -/
inductive QoSDecision (α : Type) where
  | overridden (q : α)
  | defaultQoS
  | adapted (offered_qos_profiles : String)
deriving Repr, DecidableEq

/-- `publisher_qos_for_topic` from player.cpp's anonymous namespace; the
override map and the adapted result stay abstract. -/
def publisher_qos_for_topic {α : Type} (topic : TopicMetadata)
    (topic_qos_profile_overrides : List (String × α)) : QoSDecision α :=
  match List.lookup topic.name topic_qos_profile_overrides with
  | some q => QoSDecision.overridden q
  | none =>
    if topic.offered_qos_profiles = "" then QoSDecision.defaultQoS
    else QoSDecision.adapted topic.offered_qos_profiles

inductive Reliability where
  | reliable
  | best_effort
deriving Repr, DecidableEq

inductive Durability where
  | transient_local
  | volatile
deriving Repr, DecidableEq

/-- The two QoS policies `warn_if_new_qos_for_subscribed_topic` inspects. -/
structure RmwQoSProfile where
  reliability : Reliability
  durability : Durability
deriving Repr, DecidableEq

/-- The Recorder state touched by the QoS warning check: the subscriptions
map (topic to the subscription's actual QoS), the
`topics_warned_about_incompatibility_` set, and the warning log. -/
structure RecorderState where
  subscriptions : List (String × RmwQoSProfile)
  topics_warned_about_incompatibility : List String
  warnings : List String
deriving Repr, DecidableEq

def reliabilityWarning (topic_name : String) : String :=
  "A new publisher for subscribed topic " ++ topic_name ++
  " was found offering RMW_QOS_POLICY_RELIABILITY_BEST_EFFORT, " ++
  "but rosbag already subscribed requesting RMW_QOS_POLICY_RELIABILITY_RELIABLE. " ++
  "Messages from this new publisher will not be recorded."

def durabilityWarning (topic_name : String) : String :=
  "A new publisher for subscribed topic " ++ topic_name ++
  " was found offering RMW_QOS_POLICY_DURABILITY_VOLATILE, " ++
  "but rosbag2 already subscribed requesting RMW_QOS_POLICY_DURABILITY_TRANSIENT_LOCAL. " ++
  "Messages from this new publisher will not be recorded."

/-- `std::set::insert` on the warned-topics set. -/
def insertWarnedTopic (s : List String) (t : String) : List String :=
  if t ∈ s then s else s ++ [t]

/-- The body of the `for (const auto & info : publishers_info)` loop in
`warn_if_new_qos_for_subscribed_topic`: each incompatible publisher emits a
warning and inserts the topic into the warned set; the set is not re-checked
inside the loop. -/
def warnStep (used_profile : RmwQoSProfile) (topic_name : String)
    (acc : RecorderState) (new_profile : RmwQoSProfile) : RecorderState :=
  if new_profile.reliability = Reliability.best_effort ∧
      used_profile.reliability ≠ Reliability.best_effort then
    ⟨acc.subscriptions,
      insertWarnedTopic acc.topics_warned_about_incompatibility topic_name,
      acc.warnings ++ [reliabilityWarning topic_name]⟩
  else if new_profile.durability = Durability.volatile ∧
      used_profile.durability ≠ Durability.volatile then
    ⟨acc.subscriptions,
      insertWarnedTopic acc.topics_warned_about_incompatibility topic_name,
      acc.warnings ++ [durabilityWarning topic_name]⟩
  else acc

/-- `Recorder::warn_if_new_qos_for_subscribed_topic`: no-op when the topic is
not subscribed or was already recorded as warned; otherwise scan every
current publisher of the topic. -/
def warn_if_new_qos_for_subscribed_topic (st : RecorderState) (topic_name : String)
    (publishers_info : List RmwQoSProfile) : RecorderState :=
  match List.lookup topic_name st.subscriptions with
  | none => st
  | some used_profile =>
    if topic_name ∈ st.topics_warned_about_incompatibility then st
    else publishers_info.foldl (warnStep used_profile topic_name) st

/-- The warning (if any) one publisher triggers, mirroring the if/else-if of
the loop body. -/
def warnOne (used_profile : RmwQoSProfile) (topic_name : String)
    (new_profile : RmwQoSProfile) : Option String :=
  if new_profile.reliability = Reliability.best_effort ∧
      used_profile.reliability ≠ Reliability.best_effort then
    some (reliabilityWarning topic_name)
  else if new_profile.durability = Durability.volatile ∧
      used_profile.durability ≠ Durability.volatile then
    some (durabilityWarning topic_name)
  else none

/-- The warnings one full publisher scan emits for a topic (one per
incompatible publisher, in scan order). -/
def warningsForCall (used_profile : RmwQoSProfile) (topic_name : String)
    (publishers_info : List RmwQoSProfile) : List String :=
  publishers_info.filterMap (warnOne used_profile topic_name)

/-- The fields of `RecordOptions` that `Recorder::record` branches on. -/
structure RecordOptions where
  rmw_serialization_format : String
  is_discovery_disabled : Bool
deriving Repr, DecidableEq

/-- The field of `StorageOptions` that `Recorder::record` branches on. -/
structure StorageOptions where
  snapshot_mode : Bool
deriving Repr, DecidableEq

/-- The externally visible actions `Recorder::record` performs, in order. -/
inductive RecordAction where
  | open_writer
  | setup_snapshot_service
  | subscribe_to_topics
  | start_discovery
deriving Repr, DecidableEq

/-- `Recorder::record`: throws (modelled as `Except.error`) exactly on an
empty serialization format, before any other action; otherwise opens the
writer, optionally binds the snapshot service, subscribes the initial topic
set, and optionally spawns discovery. -/
def record (storage_options : StorageOptions) (record_options : RecordOptions) :
    Except String (List RecordAction) :=
  if record_options.rmw_serialization_format = "" then
    Except.error "No serialization format specified!"
  else
    Except.ok
      ([RecordAction.open_writer] ++
        (if storage_options.snapshot_mode then [RecordAction.setup_snapshot_service] else []) ++
        [RecordAction.subscribe_to_topics] ++
        (if record_options.is_discovery_disabled then [] else [RecordAction.start_discovery]))

/-- A paused clock at bag time 0 with no jumps yet, for the witnesses. -/
def wClockPaused : TimeControllerClock := ⟨true, 0, []⟩

/-- A message on a topic with no registered publisher. -/
def wMsgNoPub : Msg := ⟨"/nopub", 0, 42⟩

/-- A message on a topic with a registered publisher. -/
def wMsgPub : Msg := ⟨"/a", 1, 50⟩

/-- Paused player whose queue head has no publisher: play_next skips it yet
the source still jumps the clock to its timestamp. -/
def wPlayerNoPub : PlayerState := ⟨wClockPaused, [], [wMsgNoPub], [], ⟨[], []⟩, 0, true⟩

/-- Paused player whose queue starts with an unpublishable message followed
by a publishable one. -/
def wPlayerSkip : PlayerState :=
  ⟨wClockPaused, ["/a"], [wMsgNoPub, wMsgPub], [], ⟨[], []⟩, 0, true⟩

/-- Player with a sorted three-message bag, used to witness `seek`. -/
def wPlayerSeek : PlayerState :=
  ⟨⟨false, 0, []⟩, [], [wMsgPub], [],
    ⟨[⟨"/a", 0, 10⟩, ⟨"/a", 1, 20⟩, ⟨"/a", 2, 30⟩], []⟩, 10, true⟩

/-- Subscription QoS requesting reliable, transient-local delivery. -/
def wSubProfile : RmwQoSProfile := ⟨Reliability.reliable, Durability.transient_local⟩

/-- Publisher offering best-effort, volatile delivery: incompatible on both
counts. -/
def wPubBestEffort : RmwQoSProfile := ⟨Reliability.best_effort, Durability.volatile⟩

/-- Recorder subscribed to topic `t`, nothing warned yet. -/
def wRecState : RecorderState := ⟨[("t", wSubProfile)], [], []⟩

end rosbag2_transport

namespace rosbag2_cpp

theorem pairContent_refillOne (p : List Msg × Option Msg) :
    pairContent (refillOne p) = pairContent p := by
  rcases p with ⟨bag, slot⟩
  cases slot <;> cases bag <;> rfl

theorem stContent_cons (p : List Msg × Option Msg) (rest : MergeState) :
    stContent (p :: rest) = pairContent p ++ stContent rest := by
  simp [stContent]

theorem stContent_refill (st : MergeState) : stContent (refill st) = stContent st := by
  induction st with
  | nil => rfl
  | cons p rest ih =>
    simp only [refill, List.map_cons] at ih ⊢
    rw [stContent_cons, stContent_cons, pairContent_refillOne]
    exact congrArg _ ih

theorem findEarliestAux_eq_none_iff :
    ∀ (slots : List (Option Msg)) (i : Nat) (best : Option (Nat × Msg)),
      findEarliestAux slots i best = none ↔ best = none ∧ ∀ s ∈ slots, s = none := by
  intro slots
  induction slots with
  | nil => intro i best; simp [findEarliestAux]
  | cons s rest ih =>
    intro i best
    cases s with
    | none =>
      simp only [findEarliestAux, ih]
      constructor
      · rintro ⟨h1, h2⟩
        refine ⟨h1, ?_⟩
        intro x hx
        rcases List.mem_cons.mp hx with h | h
        · exact h
        · exact h2 x h
      · rintro ⟨h1, h2⟩
        exact ⟨h1, fun x hx => h2 x (List.mem_cons_of_mem _ hx)⟩
    | some m =>
      have hne : ∀ (i' : Nat) (b : Nat × Msg),
          findEarliestAux rest i' (some b) ≠ none := by
        intro i' b h
        rcases (ih i' (some b)).mp h with ⟨h1, _⟩
        exact Option.noConfusion h1
      constructor
      · intro h
        cases best with
        | none => exact absurd h (hne _ _)
        | some b =>
          rcases b with ⟨j, bm⟩
          simp only [findEarliestAux] at h
          by_cases hc : m.time_stamp < bm.time_stamp
          · rw [if_pos hc] at h; exact absurd h (hne _ _)
          · rw [if_neg hc] at h; exact absurd h (hne _ _)
      · rintro ⟨-, h2⟩
        exact absurd (h2 (some m) (List.mem_cons_self _ _)) (by simp)


theorem findEarliestAux_spec :
    ∀ (slots : List (Option Msg)) (i : Nat) (best : Option (Nat × Msg)),
      (∀ (p : Nat) (bm : Msg), best = some (p, bm) → p < i) →
      ∀ (j : Nat) (m : Msg), findEarliestAux slots i best = some (j, m) →
        (best = some (j, m) ∧
          ∀ (k : Nat) (m' : Msg), slots[k]? = some (some m') → m.time_stamp ≤ m'.time_stamp)
        ∨ (∃ k : Nat, j = i + k ∧ slots[k]? = some (some m) ∧
            (∀ (p : Nat) (bm : Msg), best = some (p, bm) → m.time_stamp < bm.time_stamp) ∧
            (∀ (k' : Nat) (m' : Msg), slots[k']? = some (some m') →
              m.time_stamp ≤ m'.time_stamp ∧ (k' < k → m.time_stamp < m'.time_stamp))) := by
  intro slots
  induction slots with
  | nil =>
    intro i best hinv j m h
    left
    refine ⟨h, ?_⟩
    intro k m' hk
    simp at hk
  | cons s rest ih =>
    intro i best hinv j m h
    cases s with
    | none =>
      simp only [findEarliestAux] at h
      have hinv' : ∀ (p : Nat) (bm : Msg), best = some (p, bm) → p < i + 1 := by
        intro p bm hb; exact Nat.lt_succ_of_lt (hinv p bm hb)
      rcases ih (i + 1) best hinv' j m h with ⟨hb, hall⟩ | ⟨k, hk, hget, hbest, hall⟩
      · left
        refine ⟨hb, ?_⟩
        intro k m' hk
        cases k with
        | zero => simp at hk
        | succ k' => exact hall k' m' (by simpa using hk)
      · right
        refine ⟨k + 1, by omega, by simpa using hget, hbest, ?_⟩
        intro k' m' hk'
        cases k' with
        | zero => simp at hk'
        | succ k'' =>
          have h2 := hall k'' m' (by simpa using hk')
          exact ⟨h2.1, fun hlt => h2.2 (by omega)⟩
    | some a =>
      cases best with
      | none =>
        simp only [findEarliestAux] at h
        have hinv' : ∀ (p : Nat) (bm : Msg),
            (some (i, a) : Option (Nat × Msg)) = some (p, bm) → p < i + 1 := by
          intro p bm hb
          injection hb with hb'
          injection hb' with h1 h2
          omega
        rcases ih (i + 1) (some (i, a)) hinv' j m h with ⟨hb, hall⟩ | ⟨k, hk, hget, hbest, hall⟩
        · injection hb with hb'
          injection hb' with hji hma
          subst hji
          subst hma
          right
          refine ⟨0, by omega, by simp, ?_, ?_⟩
          · intro p bm hb2
            exact absurd hb2 (by simp)
          · intro k' m' hk'
            cases k' with
            | zero =>
              have hma2 : m' = a := by simpa using hk'.symm
              subst hma2
              exact ⟨le_refl _, by omega⟩
            | succ k'' =>
              have h2 := hall k'' m' (by simpa using hk')
              exact ⟨h2, by omega⟩
        · have hma : a.time_stamp > m.time_stamp := hbest i a rfl
          right
          refine ⟨k + 1, by omega, by simpa using hget, ?_, ?_⟩
          · intro p bm hb2
            exact absurd hb2 (by simp)
          · intro k' m' hk'
            cases k' with
            | zero =>
              have hma2 : m' = a := by simpa using hk'.symm
              subst hma2
              exact ⟨le_of_lt hma, fun _ => hma⟩
            | succ k'' =>
              have h2 := hall k'' m' (by simpa using hk')
              exact ⟨h2.1, fun hlt => h2.2 (by omega)⟩
      | some b =>
        rcases b with ⟨p0, bm0⟩
        simp only [findEarliestAux] at h
        by_cases hc : a.time_stamp < bm0.time_stamp
        · rw [if_pos hc] at h
          have hinv' : ∀ (p : Nat) (bm : Msg),
              (some (i, a) : Option (Nat × Msg)) = some (p, bm) → p < i + 1 := by
            intro p bm hb
            injection hb with hb'
            injection hb' with h1 h2
            omega
          rcases ih (i + 1) (some (i, a)) hinv' j m h with ⟨hb, hall⟩ | ⟨k, hk, hget, hbest, hall⟩
          · injection hb with hb'
            injection hb' with hji hma
            subst hji
            subst hma
            right
            refine ⟨0, by omega, by simp, ?_, ?_⟩
            · intro p bm hb2
              injection hb2 with hb2'
              injection hb2' with h1 h2
              subst h2
              exact hc
            · intro k' m' hk'
              cases k' with
              | zero =>
                have hma2 : m' = a := by simpa using hk'.symm
                subst hma2
                exact ⟨le_refl _, by omega⟩
              | succ k'' =>
                have h2 := hall k'' m' (by simpa using hk')
                exact ⟨h2, by omega⟩
          · have hma : m.time_stamp < a.time_stamp := hbest i a rfl
            right
            refine ⟨k + 1, by omega, by simpa using hget, ?_, ?_⟩
            · intro p bm hb2
              injection hb2 with hb2'
              injection hb2' with h1 h2
              subst h2
              exact lt_trans hma hc
            · intro k' m' hk'
              cases k' with
              | zero =>
                have hma2 : m' = a := by simpa using hk'.symm
                subst hma2
                exact ⟨le_of_lt hma, fun _ => hma⟩
              | succ k'' =>
                have h2 := hall k'' m' (by simpa using hk')
                exact ⟨h2.1, fun hlt => h2.2 (by omega)⟩
        · rw [if_neg hc] at h
          have hinv' : ∀ (p : Nat) (bm : Msg),
              (some (p0, bm0) : Option (Nat × Msg)) = some (p, bm) → p < i + 1 := by
            intro p bm hb
            injection hb with hb'
            injection hb' with h1 h2
            have := hinv p0 bm0 rfl
            omega
          rcases ih (i + 1) (some (p0, bm0)) hinv' j m h with ⟨hb, hall⟩ | ⟨k, hk, hget, hbest, hall⟩
          · injection hb with hb'
            injection hb' with hji hma
            subst hji
            subst hma
            left
            refine ⟨rfl, ?_⟩
            intro k m' hk
            cases k with
            | zero =>
              have hma2 : m' = a := by simpa using hk.symm
              subst hma2
              exact le_of_not_lt hc
            | succ k' => exact hall k' m' (by simpa using hk)
          · have hm0 : m.time_stamp < bm0.time_stamp := hbest p0 bm0 rfl
            right
            refine ⟨k + 1, by omega, by simpa using hget, ?_, ?_⟩
            · intro p bm hb2
              injection hb2 with hb2'
              injection hb2' with h1 h2
              subst h2
              exact hm0
            · intro k' m' hk'
              cases k' with
              | zero =>
                have hma2 : m' = a := by simpa using hk'.symm
                have hlt : m.time_stamp < m'.time_stamp := by
                  rw [hma2]
                  exact lt_of_lt_of_le hm0 (le_of_not_lt hc)
                exact ⟨le_of_lt hlt, fun _ => hlt⟩
              | succ k'' =>
                have h2 := hall k'' m' (by simpa using hk')
                exact ⟨h2.1, fun hlt => h2.2 (by omega)⟩

theorem findEarliest_eq_none_iff (slots : List (Option Msg)) :
    findEarliest slots = none ↔ ∀ s ∈ slots, s = none := by
  unfold findEarliest
  rw [findEarliestAux_eq_none_iff]
  simp

theorem findEarliest_spec (slots : List (Option Msg)) (j : Nat) (m : Msg)
    (h : findEarliest slots = some (j, m)) :
    slots[j]? = some (some m) ∧
    (∀ (k : Nat) (m' : Msg), slots[k]? = some (some m') → m.time_stamp ≤ m'.time_stamp) ∧
    (∀ (k : Nat) (m' : Msg), k < j → slots[k]? = some (some m') →
      m.time_stamp < m'.time_stamp) := by
  rcases findEarliestAux_spec slots 0 none (by intro p bm hb; cases hb) j m h with
    ⟨hb, -⟩ | ⟨k, hk, hget, -, hall⟩
  · cases hb
  · have hjk : j = k := by omega
    subst hjk
    refine ⟨hget, ?_, ?_⟩
    · intro k' m' hk'
      exact (hall k' m' hk').1
    · intro k' m' hlt hk'
      exact (hall k' m' hk').2 hlt

theorem clearSlot_length (st : MergeState) (j : Nat) :
    (clearSlot st j).length = st.length := by
  induction st generalizing j with
  | nil => rfl
  | cons p rest ih =>
    cases j with
    | zero => rfl
    | succ j' => simpa [clearSlot] using ih j'

theorem clearSlot_get (st : MergeState) (j : Nat) (bag : List Msg) (m : Msg)
    (h : st[j]? = some (bag, some m)) :
    (clearSlot st j)[j]? = some (bag, none) := by
  induction st generalizing j with
  | nil => simp at h
  | cons p rest ih =>
    cases j with
    | zero =>
      simp only [List.getElem?_cons_zero, Option.some.injEq] at h
      subst h
      simp [clearSlot]
    | succ j' =>
      simp only [List.getElem?_cons_succ] at h
      simpa [clearSlot] using ih j' h

theorem clearSlot_content (st : MergeState) (j : Nat) (bag : List Msg) (m : Msg)
    (h : st[j]? = some (bag, some m)) :
    ∃ pre post, stContent st = pre ++ m :: post ∧
      stContent (clearSlot st j) = pre ++ post := by
  induction st generalizing j with
  | nil => simp at h
  | cons p rest ih =>
    cases j with
    | zero =>
      simp only [List.getElem?_cons_zero, Option.some.injEq] at h
      subst h
      refine ⟨[], bag ++ stContent rest, ?_, ?_⟩
      · rw [stContent_cons]
        rfl
      · show stContent ((bag, none) :: rest) = [] ++ (bag ++ stContent rest)
        rw [stContent_cons]
        rfl
    | succ j' =>
      simp only [List.getElem?_cons_succ] at h
      rcases ih j' h with ⟨pre, post, h1, h2⟩
      refine ⟨pairContent p ++ pre, post, ?_, ?_⟩
      · rw [stContent_cons, h1]
        simp
      · show stContent (p :: clearSlot rest j') = pairContent p ++ pre ++ post
        rw [stContent_cons, h2]
        simp

/-- Structure of a successful `get_next` step: the returned message was chosen
by `findEarliest` over the refilled slots, the chosen slot is cleared before
returning, and the remaining content is the old content minus one copy of the
returned message. -/
theorem get_next_some_spec (st : MergeState) (m : Msg) (st' : MergeState)
    (h : get_next st = (some m, st')) :
    ∃ (j : Nat) (bag : List Msg) (pre post : List Msg),
      findEarliest ((refill st).map Prod.snd) = some (j, m) ∧
      (refill st)[j]? = some (bag, some m) ∧
      st' = clearSlot (refill st) j ∧
      st'[j]? = some (bag, none) ∧
      stContent st = pre ++ m :: post ∧
      stContent st' = pre ++ post := by
  simp only [get_next] at h
  rcases hfe : findEarliest ((refill st).map Prod.snd) with - | ⟨j, m0⟩
  · rw [hfe] at h
    simp at h
  · rw [hfe] at h
    simp only [Prod.mk.injEq, Option.some.injEq] at h
    rcases h with ⟨hm, hst⟩
    subst hst
    rw [hm] at hfe
    have hget := (findEarliest_spec _ _ _ hfe).1
    have hj : ∃ bag, (refill st)[j]? = some (bag, some m) := by
      rcases hx : (refill st)[j]? with - | p
      · rw [List.getElem?_map, hx] at hget
        simp at hget
      · rw [List.getElem?_map, hx] at hget
        simp at hget
        refine ⟨p.1, ?_⟩
        rcases p with ⟨b, s⟩
        simp only at hget
        rw [hget]
    rcases hj with ⟨bag, hjget⟩
    rcases clearSlot_content (refill st) j bag m hjget with ⟨pre, post, h1, h2⟩
    rw [stContent_refill] at h1
    exact ⟨j, bag, pre, post, by rw [hm], hjget, rfl, clearSlot_get _ _ _ _ hjget, h1, h2⟩

theorem get_next_fst_none_iff (st : MergeState) :
    (get_next st).1 = none ↔ ∀ p ∈ st, p.1 = ([] : List Msg) ∧ p.2 = (none : Option Msg) := by
  constructor
  · intro h
    simp only [get_next] at h
    rcases hfe : findEarliest ((refill st).map Prod.snd) with - | ⟨j, m0⟩
    · have hall := (findEarliest_eq_none_iff _).mp hfe
      intro p hp
      have hrp : refillOne p ∈ refill st := List.mem_map_of_mem _ hp
      have hsnd : (refillOne p).2 = none :=
        hall _ (List.mem_map_of_mem _ hrp)
      rcases p with ⟨bag, slot⟩
      cases slot with
      | some m => simp [refillOne] at hsnd
      | none =>
        cases bag with
        | nil => exact ⟨rfl, rfl⟩
        | cons m rest => simp [refillOne] at hsnd
    · rw [hfe] at h
      simp at h
  · intro hall
    have hre : refill st = st := by
      unfold refill
      have hcong : ∀ p ∈ st, refillOne p = id p := by
        intro p hp
        rcases hall p hp with ⟨h1, h2⟩
        rcases p with ⟨bag, slot⟩
        simp only at h1 h2
        subst h1
        subst h2
        rfl
      rw [List.map_congr_left hcong, List.map_id]
    have hfe : findEarliest ((refill st).map Prod.snd) = none := by
      rw [hre]
      apply (findEarliest_eq_none_iff _).mpr
      intro s hs
      rcases List.mem_map.mp hs with ⟨p, hp, hps⟩
      rw [← hps]
      exact (hall p hp).2
    simp [get_next, hfe]


theorem refillOne_pairInv (p : List Msg × Option Msg) (h : PairInv p) :
    PairInv (refillOne p) := by
  rcases p with ⟨bag, slot⟩
  cases slot with
  | some m => cases bag <;> exact h
  | none =>
    cases bag with
    | nil => exact h
    | cons m rest =>
      rcases h with ⟨hs, -⟩
      show PairInv (rest, some m)
      refine ⟨hs.of_cons, ?_⟩
      intro m' hm' x hx
      have hmm : m' = m := by simpa using hm'.symm
      subst hmm
      exact List.rel_of_sorted_cons hs x hx

theorem refill_stInv (st : MergeState) (h : StInv st) : StInv (refill st) := by
  intro p hp
  rcases List.mem_map.mp hp with ⟨q, hq, hqp⟩
  rw [← hqp]
  exact refillOne_pairInv q (h q hq)

theorem refill_refilled (st : MergeState) : Refilled (refill st) := by
  intro p hp hsnd
  rcases List.mem_map.mp hp with ⟨q, hq, hqp⟩
  rcases q with ⟨bag, slot⟩
  cases slot with
  | some m =>
    rw [← hqp] at hsnd
    cases bag <;> simp [refillOne] at hsnd
  | none =>
    cases bag with
    | nil => rw [← hqp]; rfl
    | cons m rest =>
      rw [← hqp] at hsnd
      simp [refillOne] at hsnd

theorem clearSlot_stInv :
    ∀ (st : MergeState) (j : Nat), StInv st → StInv (clearSlot st j) := by
  intro st
  induction st with
  | nil =>
    intro j h p hp
    simp [clearSlot] at hp
  | cons q rest ih =>
    intro j h
    cases j with
    | zero =>
      intro p hp
      rcases List.mem_cons.mp hp with hp1 | hp2
      · subst hp1
        have hq := h q (List.mem_cons_self _ _)
        exact ⟨hq.1, by intro m hm; cases hm⟩
      · exact h p (List.mem_cons_of_mem _ hp2)
    | succ j' =>
      intro p hp
      rcases List.mem_cons.mp hp with hp1 | hp2
      · rw [hp1]
        exact h q (List.mem_cons_self _ _)
      · exact ih j' (fun r hr => h r (List.mem_cons_of_mem _ hr)) p hp2

/-- A message chosen by `findEarliest` over a refilled, invariant-satisfying
state is no later than every message still held by the state. -/
theorem findEarliest_min_content (st : MergeState) (j : Nat) (m : Msg)
    (hinv : StInv st) (href : Refilled st)
    (hfe : findEarliest (st.map Prod.snd) = some (j, m)) :
    ∀ x ∈ stContent st, m.time_stamp ≤ x.time_stamp := by
  intro x hx
  unfold stContent at hx
  rcases List.mem_flatten.mp hx with ⟨l, hl, hxl⟩
  rcases List.mem_map.mp hl with ⟨p, hp, hpl⟩
  rcases List.mem_iff_getElem?.mp hp with ⟨k, hk⟩
  have hmin := (findEarliest_spec _ _ _ hfe).2.1
  rcases p with ⟨bag, slot⟩
  cases slot with
  | none =>
    have hbag : bag = [] := href _ hp rfl
    rw [← hpl] at hxl
    subst hbag
    simp [pairContent] at hxl
  | some ms =>
    have hslot : (st.map Prod.snd)[k]? = some (some ms) := by
      rw [List.getElem?_map, hk]
      rfl
    have hms := hmin k ms hslot
    rw [← hpl] at hxl
    simp only [pairContent] at hxl
    rcases List.mem_append.mp hxl with hx1 | hx2
    · have hxe : x = ms := by simpa using hx1
      subst hxe
      exact hms
    · have hbound := (hinv _ hp).2 ms rfl x hx2
      exact le_trans hms hbound

theorem get_next_content_perm (st : MergeState) (m : Msg) (st' : MergeState)
    (h : get_next st = (some m, st')) :
    (m :: stContent st').Perm (stContent st) ∧
    (stContent st').length < (stContent st).length := by
  rcases get_next_some_spec st m st' h with ⟨j, bag, pre, post, -, -, -, -, h1, h2⟩
  constructor
  · rw [h1, h2]
    exact (List.perm_middle).symm
  · rw [h1, h2]
    simp

theorem get_next_stInv (st : MergeState) (m : Msg) (st' : MergeState)
    (hinv : StInv st) (h : get_next st = (some m, st')) :
    StInv st' := by
  rcases get_next_some_spec st m st' h with ⟨j, bag, pre, post, -, -, hst, -, -, -⟩
  rw [hst]
  exact clearSlot_stInv _ _ (refill_stInv _ hinv)

/-- A successful `get_next` returns the minimum of everything left, including
everything left in the successor state. -/
theorem get_next_min (st : MergeState) (m : Msg) (st' : MergeState)
    (hinv : StInv st) (h : get_next st = (some m, st')) :
    ∀ x ∈ stContent st', m.time_stamp ≤ x.time_stamp := by
  rcases get_next_some_spec st m st' h with ⟨j, bag, pre, post, hfe, -, hst, -, h1, h2⟩
  intro x hx
  have hx' : x ∈ stContent (refill st) := by
    rw [stContent_refill, h1]
    rw [h2] at hx
    rcases List.mem_append.mp hx with hx1 | hx2
    · exact List.mem_append.mpr (Or.inl hx1)
    · exact List.mem_append.mpr (Or.inr (List.mem_cons_of_mem _ hx2))
  exact findEarliest_min_content (refill st) j m
    (refill_stInv _ hinv) (refill_refilled _) hfe x hx'


theorem mergeLoopFuel_congr :
    ∀ (n n' : Nat) (st : MergeState),
      (stContent st).length < n → (stContent st).length < n' →
      mergeLoopFuel n st = mergeLoopFuel n' st := by
  intro n
  induction n with
  | zero =>
    intro n' st h h'
    omega
  | succ k ih =>
    intro n' st h h'
    cases n' with
    | zero => omega
    | succ k' =>
      show (match get_next st with
        | (none, _) => []
        | (some m, st') => m :: mergeLoopFuel k st') =
        (match get_next st with
        | (none, _) => []
        | (some m, st') => m :: mergeLoopFuel k' st')
      rcases hg : get_next st with ⟨r, st'⟩
      cases r with
      | none => rfl
      | some m =>
        have hlt := (get_next_content_perm st m st' hg).2
        exact congrArg (List.cons m) (ih k' st' (by omega) (by omega))

theorem mergeLoop_none (st : MergeState) (h : (get_next st).1 = none) :
    mergeLoop st = [] := by
  show (match get_next st with
    | (none, _) => []
    | (some m, st') => m :: mergeLoopFuel (stContent st).length st') = []
  rcases hg : get_next st with ⟨r, st'⟩
  rw [hg] at h
  simp only at h
  subst h
  rfl

theorem mergeLoop_some (st : MergeState) (m : Msg) (st' : MergeState)
    (h : get_next st = (some m, st')) : mergeLoop st = m :: mergeLoop st' := by
  have hlt := (get_next_content_perm st m st' h).2
  show (match get_next st with
    | (none, _) => []
    | (some mm, st2) => mm :: mergeLoopFuel (stContent st).length st2) = m :: mergeLoop st'
  rw [h]
  show m :: mergeLoopFuel (stContent st).length st' = m :: mergeLoop st'
  exact congrArg (List.cons m)
    (mergeLoopFuel_congr ((stContent st).length) ((stContent st').length + 1) st'
      (by omega) (by omega))

end rosbag2_cpp

namespace rosbag2_cpp

theorem stContent_init (bags : List (List Msg)) :
    stContent (bags.map (fun bag => (bag, (none : Option Msg)))) = bags.flatten := by
  induction bags with
  | nil => rfl
  | cons b rest ih =>
    rw [List.map_cons, stContent_cons, List.flatten_cons, ih]
    rfl

theorem stInv_init (bags : List (List Msg)) (h : ∀ bag ∈ bags, List.Sorted tsLE bag) :
    StInv (bags.map (fun bag => (bag, (none : Option Msg)))) := by
  intro p hp
  rcases List.mem_map.mp hp with ⟨bag, hb, hbp⟩
  rw [← hbp]
  exact ⟨h bag hb, by intro m hm; cases hm⟩

theorem mergeLoop_perm (st : MergeState) : (mergeLoop st).Perm (stContent st) := by
  generalize hn : (stContent st).length = n
  induction n using Nat.strong_induction_on generalizing st with
  | _ n ih =>
    rcases hg : get_next st with ⟨r, st'⟩
    cases r with
    | none =>
      rw [mergeLoop_none st (by rw [hg])]
      have hall := (get_next_fst_none_iff st).mp (by rw [hg])
      have hc : stContent st = [] := by
        unfold stContent
        rw [List.flatten_eq_nil_iff]
        intro l hl
        rcases List.mem_map.mp hl with ⟨p, hp, hpl⟩
        rcases hall p hp with ⟨h1, h2⟩
        rw [← hpl]
        rcases p with ⟨bag, slot⟩
        simp only at h1 h2
        subst h1
        subst h2
        rfl
      rw [hc]
    | some m =>
      have hperm := (get_next_content_perm st m st' hg).1
      have hlt := (get_next_content_perm st m st' hg).2
      rw [mergeLoop_some st m st' hg]
      subst hn
      have ihp := ih (stContent st').length hlt st' rfl
      exact (ihp.cons m).trans hperm

theorem mergeLoop_sorted (st : MergeState) (hinv : StInv st) :
    List.Sorted tsLE (mergeLoop st) := by
  generalize hn : (stContent st).length = n
  induction n using Nat.strong_induction_on generalizing st with
  | _ n ih =>
    rcases hg : get_next st with ⟨r, st'⟩
    cases r with
    | none =>
      rw [mergeLoop_none st (by rw [hg])]
      exact List.sorted_nil
    | some m =>
      have hlt := (get_next_content_perm st m st' hg).2
      have hinv' := get_next_stInv st m st' hinv hg
      have hmin := get_next_min st m st' hinv hg
      rw [mergeLoop_some st m st' hg]
      subst hn
      have hs := ih (stContent st').length hlt st' hinv' rfl
      rw [List.sorted_cons]
      refine ⟨?_, hs⟩
      intro b hb
      exact hmin b ((mergeLoop_perm st').subset hb)

/-- Claim C1: for every non-empty list of input readers whose individual
message sequences have non-decreasing timestamps and every non-empty set of
writers, `rewrite` emits to every writer the full multiset union of the
readers' messages, in globally non-decreasing `time_stamp` order, always
choosing among the current per-reader head messages the one with the smallest
`time_stamp` and breaking timestamp ties by the smallest reader index. -/
theorem rewrite_kway_merge_spec (input_bags : List (List Msg)) (output_bags : Nat)
    (hin : input_bags ≠ []) (hout : output_bags ≠ 0)
    (hsorted : ∀ bag ∈ input_bags, List.Sorted tsLE bag) :
    ∃ merged : List Msg,
      rewrite input_bags output_bags = Except.ok (List.replicate output_bags merged) ∧
      merged.Perm input_bags.flatten ∧
      List.Sorted tsLE merged ∧
      (∀ (slots : List (Option Msg)) (j : Nat) (m : Msg),
        findEarliest slots = some (j, m) →
          slots[j]? = some (some m) ∧
          (∀ (k : Nat) (m' : Msg), slots[k]? = some (some m') →
            m.time_stamp ≤ m'.time_stamp) ∧
          (∀ (k : Nat) (m' : Msg), k < j → slots[k]? = some (some m') →
            m.time_stamp < m'.time_stamp)) := by
  refine ⟨mergeLoop (input_bags.map (fun bag => (bag, (none : Option Msg)))),
    ?_, ?_, ?_, ?_⟩
  · unfold rewrite
    rw [if_neg (by rintro (h | h); exacts [hin h, hout h])]
  · have hp := mergeLoop_perm (input_bags.map (fun bag => (bag, (none : Option Msg))))
    rw [stContent_init] at hp
    exact hp
  · exact mergeLoop_sorted _ (stInv_init _ hsorted)
  · exact fun slots j m h => findEarliest_spec slots j m h

/-- Witness for C1 at the spec's own example: bags `[(x,10),(x,30)]` and
`[(y,20),(y,40)]` into one writer. -/
theorem rewrite_kway_merge_spec_witness :
    (([wbagA, wbagB] : List (List Msg)) ≠ []) ∧ ((1 : Nat) ≠ 0) ∧
    (∀ bag ∈ [wbagA, wbagB], List.Sorted tsLE bag) ∧
    (∃ merged : List Msg,
      rewrite [wbagA, wbagB] 1 = Except.ok (List.replicate 1 merged) ∧
      merged.Perm ([wbagA, wbagB] : List (List Msg)).flatten ∧
      List.Sorted tsLE merged ∧
      (∀ (slots : List (Option Msg)) (j : Nat) (m : Msg),
        findEarliest slots = some (j, m) →
          slots[j]? = some (some m) ∧
          (∀ (k : Nat) (m' : Msg), slots[k]? = some (some m') →
            m.time_stamp ≤ m'.time_stamp) ∧
          (∀ (k : Nat) (m' : Msg), k < j → slots[k]? = some (some m') →
            m.time_stamp < m'.time_stamp))) :=
  ⟨by decide, by decide, by decide,
    rewrite_kway_merge_spec [wbagA, wbagB] 1 (by decide) (by decide) (by decide)⟩

/-- Claim C2: `rewrite` fails exactly when the input-reader list or the
output-writer list is empty, producing no output at all in that case; with
both non-empty it succeeds. -/
theorem rewrite_requires_input_and_output (input_bags : List (List Msg))
    (output_bags : Nat) :
    ((input_bags = [] ∨ output_bags = 0) →
      rewrite input_bags output_bags =
        Except.error "Must provide at least one input and one output bag to rewrite.") ∧
    (input_bags ≠ [] → output_bags ≠ 0 →
      ∃ out, rewrite input_bags output_bags = Except.ok out) := by
  constructor
  · intro h
    unfold rewrite
    rw [if_pos h]
  · intro h1 h2
    unfold rewrite
    rw [if_neg (by rintro (h | h); exacts [h1 h, h2 h])]
    exact ⟨_, rfl⟩

/-- Witness for C2: no input bags, one writer. -/
theorem rewrite_requires_input_and_output_witness :
    (([] : List (List Msg)) = [] ∨ (1 : Nat) = 0) ∧
    rewrite ([] : List (List Msg)) 1 =
      Except.error "Must provide at least one input and one output bag to rewrite." :=
  ⟨Or.inl rfl, (rewrite_requires_input_and_output [] 1).1 (Or.inl rfl)⟩

/-- Claim C10: `get_next` is index-safe and linear: the slot reset runs only
when some slot was non-null and then at a valid index, the slot that produced
the returned message is cleared before returning so no message is returned
twice, and `get_next` returns null exactly when every slot is empty and every
reader's cursor is exhausted. -/
theorem get_next_safety (st : MergeState) :
    ((get_next st).1 = none ↔
      ∀ p ∈ st, p.1 = ([] : List Msg) ∧ p.2 = (none : Option Msg)) ∧
    (∀ (m : Msg) (st' : MergeState), get_next st = (some m, st') →
      ∃ (j : Nat) (bag : List Msg),
        j < (refill st).length ∧
        findEarliest ((refill st).map Prod.snd) = some (j, m) ∧
        st' = clearSlot (refill st) j ∧
        st'[j]? = some (bag, none) ∧
        (m :: stContent st').Perm (stContent st)) := by
  constructor
  · exact get_next_fst_none_iff st
  · intro m st' h
    rcases get_next_some_spec st m st' h with ⟨j, bag, pre, post, hfe, hjget, hst, hcl, h1, h2⟩
    refine ⟨j, bag, ?_, hfe, hst, hcl, ?_⟩
    · rcases List.getElem?_eq_some.mp hjget with ⟨hlt, -⟩
      exact hlt
    · rw [h1, h2]
      exact List.perm_middle.symm

/-- Witness for C10 at a concrete two-reader state where one slot is filled
and the other is refilled from its reader. -/
theorem get_next_safety_witness :
    ((get_next wst).1 = none ↔
      ∀ p ∈ wst, p.1 = ([] : List Msg) ∧ p.2 = (none : Option Msg)) ∧
    (∃ (j : Nat) (bag : List Msg),
      j < (refill wst).length ∧
      findEarliest ((refill wst).map Prod.snd) = some (j, (⟨"x", 0, 10⟩ : Msg)) ∧
      wstNext = clearSlot (refill wst) j ∧
      wstNext[j]? = some (bag, none) ∧
      ((⟨"x", 0, 10⟩ : Msg) :: stContent wstNext).Perm (stContent wst)) :=
  ⟨(get_next_safety wst).1, (get_next_safety wst).2 ⟨"x", 0, 10⟩ wstNext (by decide)⟩

end rosbag2_cpp

namespace rosbag2_transport

namespace Player

theorem play_next_loop_true (pubs : List String) (queue : List Msg)
    (clock : TimeControllerClock) :
    play_next_loop pubs queue true clock = (true, clock, queue, []) := by
  cases queue with
  | nil => rfl
  | cons m rest => rfl

theorem play_next_loop_spec (pubs : List String) :
    ∀ (queue : List Msg) (clock : TimeControllerClock),
      ∃ skipped rest : List Msg,
        queue = skipped ++ rest ∧
        (∀ m ∈ skipped, publish_message pubs m = false) ∧
        (play_next_loop pubs queue false clock).2.1.jumps
          = clock.jumps
            ++ (skipped ++ (play_next_loop pubs queue false clock).2.2.2).map
                (fun m => m.time_stamp) ∧
        (play_next_loop pubs queue false clock).2.1.paused = clock.paused ∧
        ((rest = [] ∧ (play_next_loop pubs queue false clock).1 = false ∧
            (play_next_loop pubs queue false clock).2.2.1 = [] ∧
            (play_next_loop pubs queue false clock).2.2.2 = []) ∨
          (∃ (m : Msg) (rest2 : List Msg), rest = m :: rest2 ∧
            publish_message pubs m = true ∧
            (play_next_loop pubs queue false clock).1 = true ∧
            (play_next_loop pubs queue false clock).2.2.1 = rest2 ∧
            (play_next_loop pubs queue false clock).2.2.2 = [m])) := by
  intro queue
  induction queue with
  | nil =>
    intro clock
    refine ⟨[], [], rfl, ?_, ?_, rfl, Or.inl ⟨rfl, rfl, rfl, rfl⟩⟩
    · intro m hm
      simp at hm
    · simp [play_next_loop]
  | cons m q ih =>
    intro clock
    have hyes : play_next_loop pubs (m :: q) false clock
        = ((play_next_loop pubs q (publish_message pubs m) (clock.jump m.time_stamp)).1,
            (play_next_loop pubs q (publish_message pubs m) (clock.jump m.time_stamp)).2.1,
            (play_next_loop pubs q (publish_message pubs m) (clock.jump m.time_stamp)).2.2.1,
            (if publish_message pubs m then [m] else [])
              ++ (play_next_loop pubs q (publish_message pubs m)
                    (clock.jump m.time_stamp)).2.2.2) := rfl
    cases hok : publish_message pubs m with
    | false =>
      rcases ih (clock.jump m.time_stamp) with ⟨sk, rest, hq, hsk, hj, hp, hd⟩
      rw [hyes, hok]
      refine ⟨m :: sk, rest, ?_, ?_, ?_, ?_, ?_⟩
      · rw [List.cons_append, ← hq]
      · intro x hx
        rcases List.mem_cons.mp hx with h1 | h2
        · rw [h1]
          exact hok
        · exact hsk x h2
      · show (play_next_loop pubs q false (clock.jump m.time_stamp)).2.1.jumps = _
        rw [hj]
        show (clock.jump m.time_stamp).jumps ++ _ = _
        simp [TimeControllerClock.jump]
      · show (play_next_loop pubs q false (clock.jump m.time_stamp)).2.1.paused = _
        rw [hp]
        rfl
      · rcases hd with ⟨h1, h2, h3, h4⟩ | ⟨mm, rest2, h1, h2, h3, h4, h5⟩
        · exact Or.inl ⟨h1, h2, h3, by simpa using h4⟩
        · exact Or.inr ⟨mm, rest2, h1, h2, h3, h4, by simpa using h5⟩
    | true =>
      rw [hyes, hok, play_next_loop_true pubs q (clock.jump m.time_stamp)]
      refine ⟨[], m :: q, rfl, ?_, ?_, rfl, Or.inr ⟨m, q, rfl, hok, rfl, rfl, by simp⟩⟩
      · intro x hx
        simp at hx
      · show (clock.jump m.time_stamp).jumps = _
        simp [TimeControllerClock.jump]

/-- Claim C3: `play_next` warns and returns false without publishing or
popping when the clock is not paused; when paused it publishes at most one
message, silently popping any head-of-queue messages whose topic has no
registered publisher, and returns true exactly when some message was
published. -/
theorem play_next_spec (st : PlayerState) :
    (st.clock.paused = false → play_next st = (false, st)) ∧
    (st.clock.paused = true →
      ∃ skipped rest : List Msg,
        st.message_queue = skipped ++ rest ∧
        (∀ m ∈ skipped, publish_message st.publishers m = false) ∧
        (play_next st).2.published.length ≤ st.published.length + 1 ∧
        ((play_next st).1 = true ↔ (play_next st).2.published ≠ st.published) ∧
        ((rest = [] ∧ (play_next st).1 = false ∧
            (play_next st).2.published = st.published ∧
            (play_next st).2.message_queue = []) ∨
          (∃ (m : Msg) (rest2 : List Msg), rest = m :: rest2 ∧
            publish_message st.publishers m = true ∧
            (play_next st).1 = true ∧
            (play_next st).2.published = st.published ++ [m] ∧
            (play_next st).2.message_queue = rest2))) := by
  constructor
  · intro h
    unfold play_next
    rw [if_pos h]
  · intro h
    have hne : ¬(st.clock.paused = false) := by
      rw [h]
      intro hc
      cases hc
    have hpn1 : (play_next st).1
        = (play_next_loop st.publishers st.message_queue false st.clock).1 := by
      unfold play_next
      rw [if_neg hne]
    have hpn2 : (play_next st).2.published
        = st.published
          ++ (play_next_loop st.publishers st.message_queue false st.clock).2.2.2 := by
      unfold play_next
      rw [if_neg hne]
    have hpn3 : (play_next st).2.message_queue
        = (play_next_loop st.publishers st.message_queue false st.clock).2.2.1 := by
      unfold play_next
      rw [if_neg hne]
    rcases play_next_loop_spec st.publishers st.message_queue st.clock with
      ⟨sk, rest, hq, hsk, hj, hp, hd⟩
    refine ⟨sk, rest, hq, hsk, ?_, ?_, ?_⟩
    · rcases hd with ⟨-, -, -, h4⟩ | ⟨m, rest2, -, -, -, -, h5⟩
      · rw [hpn2, h4]
        simp
      · rw [hpn2, h5]
        simp
    · rcases hd with ⟨-, h1, -, h4⟩ | ⟨m, rest2, -, -, h3, -, h5⟩
      · rw [hpn1, h1, hpn2, h4]
        simp
      · rw [hpn1, h3, hpn2, h5]
        constructor
        · intro h2 hcontra
          have hlen := congrArg List.length hcontra
          simp at hlen
        · intro h2
          rfl
    · rcases hd with ⟨hrest, h1, hq2, houts⟩ | ⟨m, rest2, hrest, hpub, h1, hq2, houts⟩
      · refine Or.inl ⟨hrest, by rw [hpn1, h1], ?_, by rw [hpn3, hq2]⟩
        rw [hpn2, houts]
        simp
      · exact Or.inr ⟨m, rest2, hrest, hpub, by rw [hpn1, h1],
          by rw [hpn2, houts], by rw [hpn3, hq2]⟩

/-- Witness for C3: an unpaused player is refused; a paused player whose
queue is an unpublishable message then a publishable one skips the first and
publishes the second. -/
theorem play_next_spec_witness :
    (wPlayerSeek.clock.paused = false ∧ play_next wPlayerSeek = (false, wPlayerSeek)) ∧
    (wPlayerSkip.clock.paused = true ∧
      ∃ skipped rest : List Msg,
        wPlayerSkip.message_queue = skipped ++ rest ∧
        (∀ m ∈ skipped, publish_message wPlayerSkip.publishers m = false) ∧
        (play_next wPlayerSkip).2.published.length ≤ wPlayerSkip.published.length + 1 ∧
        ((play_next wPlayerSkip).1 = true ↔
          (play_next wPlayerSkip).2.published ≠ wPlayerSkip.published) ∧
        ((rest = [] ∧ (play_next wPlayerSkip).1 = false ∧
            (play_next wPlayerSkip).2.published = wPlayerSkip.published ∧
            (play_next wPlayerSkip).2.message_queue = []) ∨
          (∃ (m : Msg) (rest2 : List Msg), rest = m :: rest2 ∧
            publish_message wPlayerSkip.publishers m = true ∧
            (play_next wPlayerSkip).1 = true ∧
            (play_next wPlayerSkip).2.published = wPlayerSkip.published ++ [m] ∧
            (play_next wPlayerSkip).2.message_queue = rest2))) :=
  ⟨⟨rfl, (play_next_spec wPlayerSeek).1 rfl⟩, rfl, (play_next_spec wPlayerSkip).2 rfl⟩

/-- Counterexample to C4 as stated: for a paused player whose queue head has
no registered publisher, `play_next` fails to publish (returns false, nothing
published) yet the clock IS jumped to that message's timestamp — the jump at
player.cpp:306 is unconditional, not guarded by the publish result. -/
theorem play_next_clock_jump_counterexample :
    (play_next wPlayerNoPub).1 = false ∧
    (play_next wPlayerNoPub).2.published = [] ∧
    publish_message wPlayerNoPub.publishers wMsgNoPub = false ∧
    (play_next wPlayerNoPub).2.clock.jumps = [wMsgNoPub.time_stamp] := by
  decide

/-- Claim C4 (amended): in `play_next`'s publish loop the clock jump to the
dequeued message's `time_stamp` is performed for every dequeued message,
whether or not `publish_message` succeeded: the jump trace after the call is
the old trace extended by exactly the timestamps of the dequeued messages, in
order. -/
theorem play_next_clock_jumps_every_pop (st : PlayerState)
    (h : st.clock.paused = true) :
    ∃ popped : List Msg,
      st.message_queue = popped ++ (play_next st).2.message_queue ∧
      (play_next st).2.clock.jumps
        = st.clock.jumps ++ popped.map (fun m => m.time_stamp) := by
  have hne : ¬(st.clock.paused = false) := by
    rw [h]
    intro hc
    cases hc
  have hpn3 : (play_next st).2.message_queue
      = (play_next_loop st.publishers st.message_queue false st.clock).2.2.1 := by
    unfold play_next
    rw [if_neg hne]
  have hpnc : (play_next st).2.clock
      = (play_next_loop st.publishers st.message_queue false st.clock).2.1 := by
    unfold play_next
    rw [if_neg hne]
  rcases play_next_loop_spec st.publishers st.message_queue st.clock with
    ⟨sk, rest, hq, hsk, hj, hp, hd⟩
  refine ⟨sk ++ (play_next_loop st.publishers st.message_queue false st.clock).2.2.2,
    ?_, ?_⟩
  · rcases hd with ⟨hrest, -, hq2, houts⟩ | ⟨m, rest2, hrest, -, -, hq2, houts⟩
    · rw [hpn3, hq2, houts, hq, hrest]
      simp
    · rw [hpn3, hq2, houts, hq, hrest]
      simp
  · rw [hpnc, hj]

/-- Witness for C4 (amended): the unpublishable head is dequeued and its
timestamp lands in the jump trace. -/
theorem play_next_clock_jumps_every_pop_witness :
    wPlayerNoPub.clock.paused = true ∧
    ∃ popped : List Msg,
      wPlayerNoPub.message_queue = popped ++ (play_next wPlayerNoPub).2.message_queue ∧
      (play_next wPlayerNoPub).2.clock.jumps
        = wPlayerNoPub.clock.jumps ++ popped.map (fun m => m.time_stamp) :=
  ⟨rfl, play_next_clock_jumps_every_pop wPlayerNoPub rfl⟩

theorem dropWhile_lt_bound (t : Int) :
    ∀ (l : List Msg), List.Sorted tsLE l →
      ∀ m ∈ l.dropWhile (fun x => decide (x.time_stamp < t)), t ≤ m.time_stamp := by
  intro l
  induction l with
  | nil =>
    intro hs m hm
    simp at hm
  | cons a rest ih =>
    intro hs m hm
    by_cases hc : a.time_stamp < t
    · rw [List.dropWhile_cons_of_pos (by simpa using hc)] at hm
      exact ih hs.of_cons m hm
    · rw [List.dropWhile_cons_of_neg (by simpa using hc)] at hm
      have ha : t ≤ a.time_stamp := le_of_not_lt hc
      rcases List.mem_cons.mp hm with h1 | h2
      · rw [h1]
        exact ha
      · exact le_trans ha (List.rel_of_sorted_cons hs m h2)

/-- Claim C5: `seek(t)` clamps `t` below to `starting_time_` and never above,
drains the message queue, repositions the reader cursor to the clamped time,
jumps the clock there, and leaves the producer task running, so every message
still to be emitted has `time_stamp >= max(t, starting_time_)`. -/
theorem seek_spec (st : PlayerState) (t : Int)
    (hsort : List.Sorted tsLE st.reader.bag) :
    (Player.seek st t).message_queue = [] ∧
    (Player.seek st t).clock.now = max t st.starting_time ∧
    (Player.seek st t).clock.jumps = st.clock.jumps ++ [max t st.starting_time] ∧
    (Player.seek st t).storage_loading_done = false ∧
    (Player.seek st t).reader.remaining
      = st.reader.bag.dropWhile (fun m => decide (m.time_stamp < max t st.starting_time)) ∧
    (st.starting_time ≤ t → (Player.seek st t).clock.now = t) ∧
    (∀ m ∈ (Player.seek st t).reader.remaining, max t st.starting_time ≤ m.time_stamp) := by
  have htp : (if t < st.starting_time then st.starting_time else t)
      = max t st.starting_time := by
    by_cases hlt : t < st.starting_time
    · rw [if_pos hlt, max_eq_right (le_of_lt hlt)]
    · rw [if_neg hlt, max_eq_left (le_of_not_lt hlt)]
  have hrem : (Player.seek st t).reader.remaining
      = st.reader.bag.dropWhile (fun m => decide (m.time_stamp < max t st.starting_time)) := by
    show (st.reader.seek (if t < st.starting_time then st.starting_time else t)).remaining = _
    rw [htp]
    rfl
  refine ⟨rfl, ?_, ?_, rfl, hrem, ?_, ?_⟩
  · show (st.clock.jump (if t < st.starting_time then st.starting_time else t)).now = _
    rw [htp]
    rfl
  · show (st.clock.jump (if t < st.starting_time then st.starting_time else t)).jumps = _
    rw [htp]
    rfl
  · intro hle
    show (st.clock.jump (if t < st.starting_time then st.starting_time else t)).now = t
    rw [htp, max_eq_left hle]
    rfl
  · intro m hm
    rw [hrem] at hm
    exact dropWhile_lt_bound (max t st.starting_time) st.reader.bag hsort m hm

/-- Witness for C5: seeking to 25 in a bag with timestamps 10, 20, 30 and
`starting_time_` 10. -/
theorem seek_spec_witness :
    List.Sorted tsLE wPlayerSeek.reader.bag ∧
    ((Player.seek wPlayerSeek 25).message_queue = [] ∧
      (Player.seek wPlayerSeek 25).clock.now = max 25 wPlayerSeek.starting_time ∧
      (Player.seek wPlayerSeek 25).clock.jumps
        = wPlayerSeek.clock.jumps ++ [max 25 wPlayerSeek.starting_time] ∧
      (Player.seek wPlayerSeek 25).storage_loading_done = false ∧
      (Player.seek wPlayerSeek 25).reader.remaining
        = wPlayerSeek.reader.bag.dropWhile
            (fun m => decide (m.time_stamp < max 25 wPlayerSeek.starting_time)) ∧
      (wPlayerSeek.starting_time ≤ 25 → (Player.seek wPlayerSeek 25).clock.now = 25) ∧
      (∀ m ∈ (Player.seek wPlayerSeek 25).reader.remaining,
        max 25 wPlayerSeek.starting_time ≤ m.time_stamp)) :=
  ⟨by decide, seek_spec wPlayerSeek 25 (by decide)⟩

theorem playGo_ok_of_mem :
    ∀ (pre : List (Except String Unit)), (∀ p ∈ pre, p = Except.ok ()) →
      ∀ (l : List (Except String Unit)), playGo (pre ++ l) = playGo l := by
  intro pre
  induction pre with
  | nil =>
    intro h l
    rfl
  | cons p pre ih =>
    intro h l
    have hp := h p (List.mem_cons_self _ _)
    subst hp
    show playGo (pre ++ l) = playGo l
    exact ih (fun q hq => h q (List.mem_cons_of_mem _ hq)) l

/-- Claim C6: `play()` catches storage errors at loop scope: however many
passes completed before, the first failing pass makes it log exactly
`Failed to play: <msg>`, clear the readiness flag, and return normally (the
model returns a value, never propagates); the readiness flag is false on
every return path. -/
theorem play_catches_storage_errors (pre rest : List (Except String Unit)) (e : String)
    (hpre : ∀ p ∈ pre, p = Except.ok ()) :
    play (pre ++ Except.error e :: rest) = (["Failed to play: " ++ e], false) ∧
    (∀ passes : List (Except String Unit), (play passes).2 = false) := by
  constructor
  · show (playGo (pre ++ Except.error e :: rest), false) = _
    rw [playGo_ok_of_mem pre hpre]
    rfl
  · intro passes
    rfl

/-- Witness for C6: one clean pass followed by a storage error. -/
theorem play_catches_storage_errors_witness :
    (∀ p ∈ ([Except.ok ()] : List (Except String Unit)), p = Except.ok ()) ∧
    play ([Except.ok ()] ++ Except.error "boom" :: [])
      = (["Failed to play: " ++ "boom"], false) ∧
    (∀ passes : List (Except String Unit), (play passes).2 = false) :=
  ⟨by intro p hp; rw [List.mem_singleton.mp hp],
    (play_catches_storage_errors [Except.ok ()] [] "boom"
      (by intro p hp; rw [List.mem_singleton.mp hp])).1,
    (play_catches_storage_errors [Except.ok ()] [] "boom"
      (by intro p hp; rw [List.mem_singleton.mp hp])).2⟩

end Player

/-- Claim C7: `record()` throws exactly when
`record_options.rmw_serialization_format` is empty, and in that case performs
no action at all (the writer is not opened, nothing is subscribed); otherwise
it opens the writer first and subscribes the initial topic set. -/
theorem record_requires_serialization_format (storage_options : StorageOptions)
    (record_options : RecordOptions) :
    ((∃ e, record storage_options record_options = Except.error e) ↔
      record_options.rmw_serialization_format = "") ∧
    (record_options.rmw_serialization_format = "" →
      record storage_options record_options
        = Except.error "No serialization format specified!") ∧
    (record_options.rmw_serialization_format ≠ "" →
      ∃ actions, record storage_options record_options = Except.ok actions ∧
        actions.head? = some RecordAction.open_writer ∧
        RecordAction.subscribe_to_topics ∈ actions) := by
  refine ⟨⟨?_, ?_⟩, ?_, ?_⟩
  · rintro ⟨e, he⟩
    by_contra hne
    unfold record at he
    rw [if_neg hne] at he
    cases he
  · intro h
    exact ⟨_, by unfold record; rw [if_pos h]⟩
  · intro h
    unfold record
    rw [if_pos h]
  · intro hne
    refine ⟨[RecordAction.open_writer] ++
        (if storage_options.snapshot_mode then [RecordAction.setup_snapshot_service]
          else []) ++
        [RecordAction.subscribe_to_topics] ++
        (if record_options.is_discovery_disabled then [] else [RecordAction.start_discovery]),
      by unfold record; rw [if_neg hne], rfl, ?_⟩
    simp

/-- Witness for C7: empty format fails with the source's message; format
`cdr` succeeds, opening the writer first and subscribing. -/
theorem record_requires_serialization_format_witness :
    ((⟨"", false⟩ : RecordOptions).rmw_serialization_format = "") ∧
    record ⟨false⟩ ⟨"", false⟩ = Except.error "No serialization format specified!" ∧
    ((⟨"cdr", false⟩ : RecordOptions).rmw_serialization_format ≠ "") ∧
    (∃ actions, record ⟨false⟩ ⟨"cdr", false⟩ = Except.ok actions ∧
      actions.head? = some RecordAction.open_writer ∧
      RecordAction.subscribe_to_topics ∈ actions) :=
  ⟨rfl, (record_requires_serialization_format ⟨false⟩ ⟨"", false⟩).2.1 rfl,
    by decide,
    (record_requires_serialization_format ⟨false⟩ ⟨"cdr", false⟩).2.2 (by decide)⟩

theorem insertWarnedTopic_idem (s : List String) (t : String) :
    insertWarnedTopic (insertWarnedTopic s t) t = insertWarnedTopic s t := by
  by_cases h : t ∈ s
  · simp [insertWarnedTopic, h]
  · simp [insertWarnedTopic, h]

theorem mem_insertWarnedTopic_self (s : List String) (t : String) :
    t ∈ insertWarnedTopic s t := by
  unfold insertWarnedTopic
  by_cases h : t ∈ s
  · rw [if_pos h]
    exact h
  · rw [if_neg h]
    simp

theorem warnStep_eq (used_profile : RmwQoSProfile) (topic_name : String)
    (acc : RecorderState) (new_profile : RmwQoSProfile) :
    warnStep used_profile topic_name acc new_profile
      = match warnOne used_profile topic_name new_profile with
        | some w =>
          ⟨acc.subscriptions,
            insertWarnedTopic acc.topics_warned_about_incompatibility topic_name,
            acc.warnings ++ [w]⟩
        | none => acc := by
  unfold warnStep warnOne
  by_cases h1 : new_profile.reliability = Reliability.best_effort ∧
      used_profile.reliability ≠ Reliability.best_effort
  · rw [if_pos h1, if_pos h1]
  · rw [if_neg h1, if_neg h1]
    by_cases h2 : new_profile.durability = Durability.volatile ∧
        used_profile.durability ≠ Durability.volatile
    · rw [if_pos h2, if_pos h2]
    · rw [if_neg h2, if_neg h2]

theorem warnFold_spec (used_profile : RmwQoSProfile) (topic_name : String) :
    ∀ (publishers_info : List RmwQoSProfile) (acc : RecorderState),
      (List.foldl (warnStep used_profile topic_name) acc publishers_info).subscriptions
          = acc.subscriptions ∧
      (List.foldl (warnStep used_profile topic_name) acc publishers_info).warnings
          = acc.warnings ++ warningsForCall used_profile topic_name publishers_info ∧
      (List.foldl (warnStep used_profile topic_name) acc
            publishers_info).topics_warned_about_incompatibility
          = (if warningsForCall used_profile topic_name publishers_info = [] then
              acc.topics_warned_about_incompatibility
            else insertWarnedTopic acc.topics_warned_about_incompatibility topic_name) := by
  intro publishers_info
  induction publishers_info with
  | nil =>
    intro acc
    refine ⟨rfl, by simp [warningsForCall], by simp [warningsForCall]⟩
  | cons info rest ih =>
    intro acc
    rcases hwo : warnOne used_profile topic_name info with - | w
    · have hfm : warningsForCall used_profile topic_name (info :: rest)
          = warningsForCall used_profile topic_name rest := by
        unfold warningsForCall
        rw [List.filterMap_cons, hwo]
      have hstep : warnStep used_profile topic_name acc info = acc := by
        rw [warnStep_eq, hwo]
      rcases ih acc with ⟨h1, h2, h3⟩
      rw [List.foldl_cons, hstep, hfm]
      exact ⟨h1, h2, h3⟩
    · have hfm : warningsForCall used_profile topic_name (info :: rest)
          = w :: warningsForCall used_profile topic_name rest := by
        unfold warningsForCall
        rw [List.filterMap_cons, hwo]
      have hstep : warnStep used_profile topic_name acc info
          = ⟨acc.subscriptions,
              insertWarnedTopic acc.topics_warned_about_incompatibility topic_name,
              acc.warnings ++ [w]⟩ := by
        rw [warnStep_eq, hwo]
      rcases ih ⟨acc.subscriptions,
          insertWarnedTopic acc.topics_warned_about_incompatibility topic_name,
          acc.warnings ++ [w]⟩ with ⟨h1, h2, h3⟩
      rw [List.foldl_cons, hstep, hfm]
      refine ⟨h1, ?_, ?_⟩
      · rw [h2]
        simp
      · rw [h3]
        by_cases hrest : warningsForCall used_profile topic_name rest = []
        · rw [if_pos hrest, if_neg (by simp)]
        · rw [if_neg hrest, if_neg (by simp)]
          exact insertWarnedTopic_idem _ _

/-- Counterexample to C8 as stated: within one call of
`warn_if_new_qos_for_subscribed_topic` scanning two incompatible publishers
of the same topic, the warning is emitted twice — the warned-topics set is
checked only at entry, and the publisher loop neither breaks nor re-checks
it after recording the first warning. -/
theorem warn_qos_counterexample :
    (warn_if_new_qos_for_subscribed_topic wRecState "t"
      [wPubBestEffort, wPubBestEffort]).warnings.length = 2 := by
  decide

/-- Claim C8 (amended): across calls the warning is emitted at most once per
topic — a call that warns records the topic, and any later call for a
recorded (or unsubscribed) topic is a no-op — but within the single call
that warns, every incompatible publisher in the scanned list emits one
warning, so that call can warn more than once for the topic. -/
theorem warn_qos_amended (st : RecorderState) (topic_name : String)
    (publishers_info : List RmwQoSProfile) :
    ((List.lookup topic_name st.subscriptions = none ∨
        topic_name ∈ st.topics_warned_about_incompatibility) →
      warn_if_new_qos_for_subscribed_topic st topic_name publishers_info = st) ∧
    (∀ used_profile, List.lookup topic_name st.subscriptions = some used_profile →
      topic_name ∉ st.topics_warned_about_incompatibility →
      (warn_if_new_qos_for_subscribed_topic st topic_name publishers_info).warnings
          = st.warnings ++ warningsForCall used_profile topic_name publishers_info ∧
      (warningsForCall used_profile topic_name publishers_info ≠ [] →
        topic_name ∈ (warn_if_new_qos_for_subscribed_topic st topic_name
          publishers_info).topics_warned_about_incompatibility)) ∧
    (topic_name ∈ (warn_if_new_qos_for_subscribed_topic st topic_name
        publishers_info).topics_warned_about_incompatibility →
      ∀ publishers_info2 : List RmwQoSProfile,
        warn_if_new_qos_for_subscribed_topic
          (warn_if_new_qos_for_subscribed_topic st topic_name publishers_info)
          topic_name publishers_info2
        = warn_if_new_qos_for_subscribed_topic st topic_name publishers_info) := by
  have hnoop : ∀ (st2 : RecorderState) (infos : List RmwQoSProfile),
      topic_name ∈ st2.topics_warned_about_incompatibility →
      warn_if_new_qos_for_subscribed_topic st2 topic_name infos = st2 := by
    intro st2 infos hmem
    unfold warn_if_new_qos_for_subscribed_topic
    cases hl : List.lookup topic_name st2.subscriptions with
    | none => rfl
    | some used_profile =>
      show (if topic_name ∈ st2.topics_warned_about_incompatibility then st2
        else List.foldl (warnStep used_profile topic_name) st2 infos) = st2
      rw [if_pos hmem]
  refine ⟨?_, ?_, ?_⟩
  · rintro (h | h)
    · unfold warn_if_new_qos_for_subscribed_topic
      rw [h]
    · exact hnoop st publishers_info h
  · intro used_profile hl hnw
    have hun : warn_if_new_qos_for_subscribed_topic st topic_name publishers_info
        = List.foldl (warnStep used_profile topic_name) st publishers_info := by
      unfold warn_if_new_qos_for_subscribed_topic
      rw [hl]
      show (if topic_name ∈ st.topics_warned_about_incompatibility then st
        else List.foldl (warnStep used_profile topic_name) st publishers_info) = _
      rw [if_neg hnw]
    rcases warnFold_spec used_profile topic_name publishers_info st with ⟨h1, h2, h3⟩
    refine ⟨by rw [hun, h2], ?_⟩
    intro hne
    rw [hun, h3, if_neg hne]
    exact mem_insertWarnedTopic_self _ _
  · intro hmem publishers_info2
    exact hnoop _ publishers_info2 hmem

/-- Witness for C8 (amended) at the recorder state subscribed reliably to
topic `t` with one best-effort publisher. -/
theorem warn_qos_amended_witness :
    (List.lookup "t" wRecState.subscriptions = some wSubProfile) ∧
    ("t" ∉ wRecState.topics_warned_about_incompatibility) ∧
    ((warn_if_new_qos_for_subscribed_topic wRecState "t" [wPubBestEffort]).warnings
        = wRecState.warnings ++ warningsForCall wSubProfile "t" [wPubBestEffort] ∧
      (warningsForCall wSubProfile "t" [wPubBestEffort] ≠ [] →
        "t" ∈ (warn_if_new_qos_for_subscribed_topic wRecState "t"
          [wPubBestEffort]).topics_warned_about_incompatibility)) :=
  ⟨by decide, by decide,
    (warn_qos_amended wRecState "t" [wPubBestEffort]).2.1 wSubProfile (by decide)
      (by decide)⟩

/-- Claim C9: `publisher_qos_for_topic` selects by this priority: an override
for the topic name wins; otherwise an empty `offered_qos_profiles` string
gives the default profile; otherwise the recorded profiles are adapted into a
single compatible offer. -/
theorem publisher_qos_for_topic_priority {α : Type} (topic : TopicMetadata)
    (topic_qos_profile_overrides : List (String × α)) :
    (∀ q, List.lookup topic.name topic_qos_profile_overrides = some q →
      publisher_qos_for_topic topic topic_qos_profile_overrides
        = QoSDecision.overridden q) ∧
    (List.lookup topic.name topic_qos_profile_overrides = none →
      topic.offered_qos_profiles = "" →
      publisher_qos_for_topic topic topic_qos_profile_overrides
        = QoSDecision.defaultQoS) ∧
    (List.lookup topic.name topic_qos_profile_overrides = none →
      topic.offered_qos_profiles ≠ "" →
      publisher_qos_for_topic topic topic_qos_profile_overrides
        = QoSDecision.adapted topic.offered_qos_profiles) := by
  refine ⟨?_, ?_, ?_⟩
  · intro q hq
    unfold publisher_qos_for_topic
    rw [hq]
  · intro hn he
    unfold publisher_qos_for_topic
    rw [hn]
    show (if topic.offered_qos_profiles = "" then QoSDecision.defaultQoS
      else QoSDecision.adapted topic.offered_qos_profiles) = _
    rw [if_pos he]
  · intro hn he
    unfold publisher_qos_for_topic
    rw [hn]
    show (if topic.offered_qos_profiles = "" then QoSDecision.defaultQoS
      else QoSDecision.adapted topic.offered_qos_profiles) = _
    rw [if_neg he]

/-- Witness for C9: all three priority branches at concrete topics and an
override map valued in `Nat`. -/
theorem publisher_qos_for_topic_priority_witness :
    (List.lookup "/a" [("/a", (7 : Nat))] = some 7 ∧
      publisher_qos_for_topic (⟨"/a", "T", "cdr", ""⟩ : TopicMetadata)
        [("/a", (7 : Nat))] = QoSDecision.overridden 7) ∧
    (List.lookup "/b" ([] : List (String × Nat)) = none ∧
      publisher_qos_for_topic (⟨"/b", "T", "cdr", ""⟩ : TopicMetadata)
        ([] : List (String × Nat)) = QoSDecision.defaultQoS) ∧
    (publisher_qos_for_topic (⟨"/c", "T", "cdr", "- history: keep_last"⟩ : TopicMetadata)
        ([] : List (String × Nat))
      = QoSDecision.adapted "- history: keep_last") :=
  ⟨⟨rfl, (publisher_qos_for_topic_priority (⟨"/a", "T", "cdr", ""⟩ : TopicMetadata)
      [("/a", (7 : Nat))]).1 7 rfl⟩,
    ⟨rfl, (publisher_qos_for_topic_priority (⟨"/b", "T", "cdr", ""⟩ : TopicMetadata)
      ([] : List (String × Nat))).2.1 rfl rfl⟩,
    (publisher_qos_for_topic_priority
      (⟨"/c", "T", "cdr", "- history: keep_last"⟩ : TopicMetadata)
      ([] : List (String × Nat))).2.2 rfl (by decide)⟩

end rosbag2_transport
